import Mathlib

/-!
Verification of the construction-linked loan amortization engine
(`calculateLoan`, src/unnamed/part_001 lines 99-404).

The engine is embedded shallowly:

* Calendar dates are modelled by `YMD` (proleptic Gregorian calendar).
  The date-fns operations used by the source — `addMonths` (with end-of-month
  day clamping), `differenceInDays`, `getTime`-based comparison of midnight
  dates, `getDaysInMonth` — are implemented exactly; `getTime` is taken in
  days rather than milliseconds, which is an order-preserving rescaling and
  the source only ever compares, subtracts, or stores these values.
* JS numbers are modelled as exact rationals `ℚ`.
* `Math.pow` with a non-integer exponent (used only inside the EMI annuity
  formula, lines 251 and 378) is transcendental, so the engine is
  parameterised by an arbitrary function `pw : ℚ → ℚ → ℚ` standing for it;
  every theorem below holds for every such `pw`, and concrete witnesses
  instantiate it explicitly.
* The `for` loop (line 196) becomes fuel recursion `runLoop` with fuel
  `maxMonths = 1200`; `break` (line 277) is the `Bool` component of
  `stepMonth`.

Each definition is annotated with the source lines it embeds.
-/

unseal Rat.add Rat.mul Rat.sub Rat.inv Nat.gcd

set_option maxRecDepth 1000000

namespace ConstructionLoan

/-- A calendar date: year / month (1-12) / day (1-31), time-of-day irrelevant. -/
structure YMD where
  year : Int
  month : Int
  day : Int
deriving DecidableEq, Repr

/-- Gregorian leap-year rule. -/
def isLeapYear (y : Int) : Bool :=
  (Int.fmod y 4 == 0 && Int.fmod y 100 != 0) || Int.fmod y 400 == 0

/-- Days in a month of a given year (`date-fns getDaysInMonth`). -/
def daysInMonth (y m : Int) : Int :=
  if m = 2 then (if isLeapYear y then 29 else 28)
  else if m = 4 ∨ m = 6 ∨ m = 9 ∨ m = 11 then 30
  else 31

/-- Day number of a civil date (days since 1970-01-01, Hinnant's algorithm,
floor-division variant). This is `Date.getTime()` rescaled from milliseconds
to days; the source only compares, subtracts and stores these values. -/
def daysFromCivil (dt : YMD) : Int :=
  let y := if dt.month ≤ 2 then dt.year - 1 else dt.year
  let era := Int.fdiv y 400
  let yoe := y - era * 400
  let mp := Int.fmod (dt.month + 9) 12
  let doy := Int.fdiv (153 * mp + 2) 5 + dt.day - 1
  let doe := yoe * 365 + Int.fdiv yoe 4 - Int.fdiv yoe 100 + doy
  era * 146097 + doe - 719468

/-- `Date.getTime()` (in days, see `daysFromCivil`). -/
def getTime (dt : YMD) : Int := daysFromCivil dt

/-- `date-fns addMonths`: advance the month, clamping the day to the length
of the target month (Jan 31 + 1 month = Feb 28/29). -/
def addMonths (dt : YMD) (n : Int) : YMD :=
  let m0 := dt.month - 1 + n
  let y := dt.year + Int.fdiv m0 12
  let m := Int.fmod m0 12 + 1
  ⟨y, m, min dt.day (daysInMonth y m)⟩

/-- `date-fns differenceInDays a b` = whole days from `b` to `a`
(exact for midnight dates). -/
def differenceInDays (a b : YMD) : Int := daysFromCivil a - daysFromCivil b

/-- Input event: a tranche release (src/unnamed/part_001 lines 101-104). -/
structure Disbursal where
  date : YMD
  amount : ℚ
deriving DecidableEq, Repr

/-- Input event: an interest-rate change (lines 106-109). -/
structure InterestRateChange where
  date : YMD
  rate : ℚ
deriving DecidableEq, Repr

/-- Input event: an extra principal payment (lines 111-114). -/
structure ExtraPayment where
  date : YMD
  amount : ℚ
deriving DecidableEq, Repr

/-- One schedule row (lines 116-128). -/
structure EMIPayment where
  month : Nat
  date : YMD
  openingPrincipal : ℚ
  emi : ℚ
  theoreticalEmi : ℚ
  interest : ℚ
  principalPaid : ℚ
  extraPaid : ℚ
  closingPrincipal : ℚ
  phase : Nat
  rate : ℚ
deriving DecidableEq, Repr

/-- One EMI phase (lines 130-139). -/
structure PhaseInfo where
  phaseIndex : Nat
  startDate : YMD
  endDate : Option YMD
  principalAtStart : ℚ
  disbursalAdded : ℚ
  remainingTenureMonths : ℚ
  emi : ℚ
  rate : ℚ
deriving DecidableEq, Repr

/-- Aggregate summary (lines 144-150). -/
structure Summary where
  totalInterest : ℚ
  totalAmountPaid : ℚ
  totalDisbursed : ℚ
  totalExtraPaid : ℚ
  closureDate : YMD
deriving DecidableEq, Repr

/-- Engine output (lines 141-151). -/
structure CalculationResult where
  schedule : List EMIPayment
  phases : List PhaseInfo
  summary : Summary
deriving DecidableEq, Repr

/-- All-zero row, used only as the default for safe list indexing. -/
def rowDefault : EMIPayment :=
  ⟨0, ⟨0, 1, 1⟩, 0, 0, 0, 0, 0, 0, 0, 0, 0⟩

/-- All-zero phase, used only as the default for safe list indexing. -/
def phDefault : PhaseInfo :=
  ⟨0, ⟨0, 1, 1⟩, none, 0, 0, 0, 0, 0⟩

/-- Stable insertion of an element into a list sorted by `key`, placing it
before the first entry with a key `≥` its own. -/
def insertByKey {α : Type} (key : α → Int) (x : α) : List α → List α
  | [] => [x]
  | y :: ys => if key y < key x then y :: insertByKey key x ys else x :: y :: ys

/-- Stable sort by `key`; models `Array.prototype.sort` with comparator
`(a, b) => key(a) - key(b)` (stable in JS), lines 163-173 and 286-289. -/
def sortByKey {α : Type} (key : α → Int) (l : List α) : List α :=
  l.foldr (insertByKey key) []

/-- Fixed engine inputs after the initial sorting (lines 153-175). -/
structure LoanParams where
  pw : ℚ → ℚ → ℚ
  loanEndDate : YMD
  fullEmiAtStart : ℚ
  sortedDisbursals : List Disbursal
  sortedRateChanges : List InterestRateChange
  sortedExtraPayments : List ExtraPayment

/-- The mutable loop state (lines 177-194). -/
structure LoanState where
  currentDate : YMD
  currentPrincipal : ℚ
  currentPhaseIndex : Nat
  currentInterestRate : ℚ
  schedule : List EMIPayment
  phases : List PhaseInfo
  totalInterest : ℚ
  totalDisbursed : ℚ
  totalExtraPaid : ℚ
  currentMinEmi : ℚ
  processedDisbursals : List Int
  processedRateChanges : List Int
  processedExtraPayments : List Int

/-- End of the month window starting at the current date (line 198). -/
def monthEndOf (st : LoanState) : YMD := addMonths st.currentDate 1

/-- Membership of a timestamp in the half-open month window (lines 201-203). -/
def inWindow (st : LoanState) (t : Int) : Bool :=
  decide (getTime st.currentDate ≤ t) && decide (t < getTime (monthEndOf st))

/-- Unconsumed rate changes falling in this month's window (lines 201-205). -/
def monthRateChangesOf (P : LoanParams) (st : LoanState) : List InterestRateChange :=
  P.sortedRateChanges.filter (fun r =>
    inWindow st (getTime r.date) && !(st.processedRateChanges.contains (getTime r.date)))

/-- The rate after this month's rate-change resolution: the latest matched
change wins, otherwise the rate is unchanged (lines 207-213). -/
def newRateOf (P : LoanParams) (st : LoanState) : ℚ :=
  match (monthRateChangesOf P st).getLast? with
  | some lastChange => lastChange.rate
  | none => st.currentInterestRate

/-- Consumed-rate-change set after this month (line 211). -/
def processedRateAfter (P : LoanParams) (st : LoanState) : List Int :=
  st.processedRateChanges ++ (monthRateChangesOf P st).map (fun r => getTime r.date)

/-- Unconsumed disbursals falling in this month's window (lines 216-220). -/
def monthDisbursalsOf (P : LoanParams) (st : LoanState) : List Disbursal :=
  P.sortedDisbursals.filter (fun d =>
    inWindow st (getTime d.date) && !(st.processedDisbursals.contains (getTime d.date)))

/-- Total disbursal amount consumed this month (lines 225-235). -/
def disbSumOf (P : LoanParams) (st : LoanState) : ℚ :=
  ((monthDisbursalsOf P st).map (fun d => d.amount)).sum

/-- Outstanding principal after this month's disbursals (line 231); this is
the `openingPrincipal` recorded on the row (line 352). -/
def openingOf (P : LoanParams) (st : LoanState) : ℚ :=
  st.currentPrincipal + disbSumOf P st

/-- Running disbursed total after this month (line 232). -/
def totalDisbursedAfter (P : LoanParams) (st : LoanState) : ℚ :=
  st.totalDisbursed + disbSumOf P st

/-- Consumed-disbursal set after this month (line 234). -/
def processedDisbAfter (P : LoanParams) (st : LoanState) : List Int :=
  st.processedDisbursals ++ (monthDisbursalsOf P st).map (fun d => getTime d.date)

/-- `principalChanged || rateChanged` (lines 207, 222, 240). -/
def phaseTriggered (P : LoanParams) (st : LoanState) : Bool :=
  !(monthDisbursalsOf P st).isEmpty || !(monthRateChangesOf P st).isEmpty

/-- Remaining tenure in (fractional) months measured from `d`:
`max 1 (daysRemaining / 30.4375)` (lines 241-242). -/
def monthsRemainingFrom (P : LoanParams) (d : YMD) : ℚ :=
  max 1 ((differenceInDays P.loanEndDate d : ℚ) / (487/16))

/-- The standard annuity EMI over principal `p`, monthly rate `r`, term `n`
months, zero-rate branch separate (lines 245-254). -/
def emiFormula (pw : ℚ → ℚ → ℚ) (p r n : ℚ) : ℚ :=
  if 0 < p ∧ 0 < n then
    if r = 0 then p / n
    else p * r * pw (1 + r) n / (pw (1 + r) n - 1)
  else 0

/-- Theoretical minimum EMI after this month's events: recomputed when a
disbursal or rate change occurred, otherwise carried over (lines 239-257). -/
def minEmiAfterEvents (P : LoanParams) (st : LoanState) : ℚ :=
  if phaseTriggered P st then
    emiFormula P.pw (openingOf P st) (newRateOf P st / 12 / 100)
      (monthsRemainingFrom P st.currentDate)
  else st.currentMinEmi

/-- The phase record opened this month, when one is (lines 259-268). -/
def newPhaseOf (P : LoanParams) (st : LoanState) : PhaseInfo :=
  { phaseIndex := st.currentPhaseIndex
    startDate := st.currentDate
    endDate := none
    principalAtStart := openingOf P st
    disbursalAdded := disbSumOf P st
    remainingTenureMonths := monthsRemainingFrom P st.currentDate
    emi := max (minEmiAfterEvents P st) P.fullEmiAtStart
    rate := newRateOf P st }

/-- Append a phase and close the previous phase's `endDate` at the new
phase's start (lines 259-272). -/
def pushPhase (phases : List PhaseInfo) (ph : PhaseInfo) (ms : YMD) : List PhaseInfo :=
  let ps := phases ++ [ph]
  if 1 < ps.length then
    let idx := ps.length - 2
    let prev := ps.getD idx ph
    ps.set idx { prev with endDate := some ms }
  else ps

/-- Phase list after this month's events (lines 259-273). -/
def phasesAfterEvents (P : LoanParams) (st : LoanState) : List PhaseInfo :=
  if phaseTriggered P st then pushPhase st.phases (newPhaseOf P st) st.currentDate
  else st.phases

/-- Phase counter after this month's events (line 260). -/
def phaseIndexAfterEvents (P : LoanParams) (st : LoanState) : Nat :=
  if phaseTriggered P st then st.currentPhaseIndex + 1 else st.currentPhaseIndex

/-- Loan-closure termination check, evaluated after event processing and
before interest accrual (lines 275-278). -/
def breakCondition (P : LoanParams) (st : LoanState) : Bool :=
  decide (openingOf P st ≤ 1/100) && decide (0 < totalDisbursedAfter P st) &&
    P.sortedDisbursals.all (fun d => (processedDisbAfter P st).contains (getTime d.date))

/-- State returned when the termination check fires: all event processing of
the month has already been applied, nothing else has (lines 196-278). -/
def stateAfterEvents (P : LoanParams) (st : LoanState) : LoanState :=
  { st with
    currentInterestRate := newRateOf P st
    processedRateChanges := processedRateAfter P st
    currentPrincipal := openingOf P st
    totalDisbursed := totalDisbursedAfter P st
    processedDisbursals := processedDisbAfter P st
    currentMinEmi := minEmiAfterEvents P st
    phases := phasesAfterEvents P st
    currentPhaseIndex := phaseIndexAfterEvents P st }

/-- A mid-month event for the day-wise interest walk (lines 286-289). -/
inductive MonthEvent where
  | disb (date : YMD) (amount : ℚ)
  | rateEv (date : YMD) (rate : ℚ)
deriving DecidableEq, Repr

/-- Date of a mid-month event. -/
def MonthEvent.date : MonthEvent → YMD
  | .disb d _ => d
  | .rateEv d _ => d

/-- This month's disbursal and rate events merged and stably sorted by date
(lines 286-289). -/
def eventsOf (P : LoanParams) (st : LoanState) : List MonthEvent :=
  sortByKey (fun e => getTime e.date)
    ((monthDisbursalsOf P st).map (fun d => MonthEvent.disb d.date d.amount) ++
     (monthRateChangesOf P st).map (fun r => MonthEvent.rateEv r.date r.rate))

/-- Closing principal of the previous row, 0 if none (lines 291-294). -/
def prevClosingOf (st : LoanState) : ℚ :=
  match st.schedule.getLast? with
  | some row => row.closingPrincipal
  | none => 0

/-- Interest charged for the month: a flat monthly rate on the updated
principal when the month has no disbursal/rate events, otherwise a day-wise
walk over the events at the month's final rate, starting from the previous
row's closing balance (lines 280-314). -/
def interestOf (P : LoanParams) (st : LoanState) : ℚ :=
  let events := eventsOf P st
  if events.isEmpty then openingOf P st * (newRateOf P st / 12 / 100)
  else
    let step := fun (acc : ℚ × ℚ × YMD) (e : MonthEvent) =>
      let days := differenceInDays e.date acc.2.2
      let acc1 := acc.1 + acc.2.1 * (newRateOf P st / 100) * ((days : ℚ) / 365)
      let temp := match e with
        | .disb _ a => acc.2.1 + a
        | .rateEv _ _ => acc.2.1
      (acc1, temp, e.date)
    let fin := events.foldl step (0, prevClosingOf st, st.currentDate)
    let remainingDays := differenceInDays (monthEndOf st) fin.2.2
    fin.1 + fin.2.1 * (newRateOf P st / 100) * ((remainingDays : ℚ) / 365)

/-- The EMI demanded before clamping: `max(currentMinEmi, fullEmiAtStart)`
(line 316). -/
def emiToPay0 (P : LoanParams) (st : LoanState) : ℚ :=
  max (minEmiAfterEvents P st) P.fullEmiAtStart

/-- Scheduled principal component before the zero floor (line 317). -/
def principalPaid0 (P : LoanParams) (st : LoanState) : ℚ :=
  emiToPay0 P st - interestOf P st

/-- Scheduled principal component after the zero floor (line 332). -/
def principalPaid1 (P : LoanParams) (st : LoanState) : ℚ :=
  if principalPaid0 P st < 0 then 0 else principalPaid0 P st

/-- Unconsumed extra payments falling in this month's window (lines 320-324). -/
def monthExtrasOf (P : LoanParams) (st : LoanState) : List ExtraPayment :=
  P.sortedExtraPayments.filter (fun p =>
    inWindow st (getTime p.date) && !(st.processedExtraPayments.contains (getTime p.date)))

/-- Total extra-payment amount consumed this month (lines 326-330). -/
def extraSumOf (P : LoanParams) (st : LoanState) : ℚ :=
  ((monthExtrasOf P st).map (fun p => p.amount)).sum

/-- Consumed-extra-payment set after this month (line 329). -/
def processedExtraAfter (P : LoanParams) (st : LoanState) : List Int :=
  st.processedExtraPayments ++ (monthExtrasOf P st).map (fun p => getTime p.date)

/-- The reduction clamp fires when scheduled principal plus extra payments
exceed the outstanding principal (lines 334-336). -/
def clampFired (P : LoanParams) (st : LoanState) : Bool :=
  decide (openingOf P st < principalPaid1 P st + extraSumOf P st)

/-- Total principal reduction after the clamp (lines 334-337). -/
def reductionF (P : LoanParams) (st : LoanState) : ℚ :=
  if clampFired P st then openingOf P st else principalPaid1 P st + extraSumOf P st

/-- Extra-payment amount after the clamp: capped at the outstanding principal
first (lines 338-340). -/
def extraF (P : LoanParams) (st : LoanState) : ℚ :=
  if clampFired P st then
    if openingOf P st < extraSumOf P st then openingOf P st else extraSumOf P st
  else extraSumOf P st

/-- Scheduled principal after the clamp: what the capped extra leaves over
(lines 338-343). -/
def principalPaidF (P : LoanParams) (st : LoanState) : ℚ :=
  if clampFired P st then
    if openingOf P st < extraSumOf P st then 0 else openingOf P st - extraSumOf P st
  else principalPaid1 P st

/-- EMI actually recorded: re-derived as principal + interest when the clamp
fired (lines 316, 344). -/
def emiToPayF (P : LoanParams) (st : LoanState) : ℚ :=
  if clampFired P st then principalPaidF P st + interestOf P st else emiToPay0 P st

/-- Closing principal of the month (line 347). -/
def closingOf (P : LoanParams) (st : LoanState) : ℚ :=
  openingOf P st - reductionF P st

/-- The EMI-surplus component of `extraPaid` (line 357). -/
def surplusOf (P : LoanParams) (st : LoanState) : ℚ :=
  if minEmiAfterEvents P st < emiToPayF P st then
    emiToPayF P st - max (minEmiAfterEvents P st) (interestOf P st)
  else 0

/-- The schedule row emitted for month `m` (lines 349-361). -/
def rowOf (P : LoanParams) (st : LoanState) (m : Nat) : EMIPayment :=
  { month := m
    date := st.currentDate
    openingPrincipal := openingOf P st
    theoreticalEmi := minEmiAfterEvents P st
    emi := emiToPayF P st
    interest := interestOf P st
    principalPaid := principalPaidF P st
    extraPaid := extraF P st + surplusOf P st
    closingPrincipal := closingOf P st
    phase := phaseIndexAfterEvents P st
    rate := newRateOf P st }

/-- Theoretical minimum EMI recomputed for the next month at the month end
(lines 368-386). -/
def nextMinEmi (P : LoanParams) (st : LoanState) : ℚ :=
  let monthsRemaining := max 0 ((differenceInDays P.loanEndDate (monthEndOf st) : ℚ) / (487/16))
  let r := newRateOf P st / 12 / 100
  if 0 < closingOf P st ∧ 0 < monthsRemaining then
    if r = 0 then closingOf P st / monthsRemaining
    else closingOf P st * r * P.pw (1 + r) monthsRemaining / (P.pw (1 + r) monthsRemaining - 1)
  else if 0 < closingOf P st then closingOf P st
  else 0

/-- The state after a full month iteration that emitted a row (lines 349-386):
row appended, running totals bumped, principal and date advanced. -/
def contState (P : LoanParams) (m : Nat) (st : LoanState) : LoanState :=
  { currentDate := monthEndOf st
    currentPrincipal := closingOf P st
    currentPhaseIndex := phaseIndexAfterEvents P st
    currentInterestRate := newRateOf P st
    schedule := st.schedule ++ [rowOf P st m]
    phases := phasesAfterEvents P st
    totalInterest := st.totalInterest + interestOf P st
    totalDisbursed := totalDisbursedAfter P st
    totalExtraPaid := st.totalExtraPaid + (rowOf P st m).extraPaid
    currentMinEmi := nextMinEmi P st
    processedDisbursals := processedDisbAfter P st
    processedRateChanges := processedRateAfter P st
    processedExtraPayments := processedExtraAfter P st }

/-- One iteration of the monthly loop (lines 196-387): apply events; if the
termination check fires return the partially-updated state with `true`,
otherwise emit the row for month `m`, advance the state and return `false`. -/
def stepMonth (P : LoanParams) (m : Nat) (st : LoanState) : LoanState × Bool :=
  if breakCondition P st then (stateAfterEvents P st, true)
  else (contState P m st, false)

/-- The monthly loop, fuel-bounded (lines 196, 387): at most `fuel` more
iterations, current month index `m`; stops early when `stepMonth` breaks. -/
def runLoop (P : LoanParams) : Nat → Nat → LoanState → LoanState
  | 0, _, st => st
  | fuel + 1, m, st =>
    let r := stepMonth P m st
    if r.2 then r.1 else runLoop P fuel (m + 1) r.1

/-- Hard iteration cap of the loop (line 189). -/
def maxMonths : Nat := 1200

/-- Close the last phase at the final date and assemble the result
(lines 389-403). -/
def finalizeResult (st : LoanState) : CalculationResult :=
  let phases :=
    if 0 < st.phases.length then
      let idx := st.phases.length - 1
      let lastPh := st.phases.getD idx phDefault
      st.phases.set idx { lastPh with endDate := some st.currentDate }
    else st.phases
  { schedule := st.schedule
    phases := phases
    summary :=
      { totalInterest := st.totalInterest
        totalAmountPaid := st.totalDisbursed + st.totalInterest
        totalDisbursed := st.totalDisbursed
        totalExtraPaid := st.totalExtraPaid
        closureDate := st.currentDate } }

/-- Initial loop state (lines 177-194). -/
def initState (initialInterestRate : ℚ) (startDate : YMD) : LoanState :=
  { currentDate := startDate
    currentPrincipal := 0
    currentPhaseIndex := 0
    currentInterestRate := initialInterestRate
    schedule := []
    phases := []
    totalInterest := 0
    totalDisbursed := 0
    totalExtraPaid := 0
    currentMinEmi := 0
    processedDisbursals := []
    processedRateChanges := []
    processedExtraPayments := [] }

/-- Bundle the sorted inputs (lines 153-175). `totalLoanApproved` is accepted
and ignored, exactly as in the source. -/
def mkParams (pw : ℚ → ℚ → ℚ) (loanTenureYears : Int) (startDate : YMD)
    (disbursals : List Disbursal) (interestRateChanges : List InterestRateChange)
    (extraPayments : List ExtraPayment) (fullEmiAtStart : ℚ) : LoanParams :=
  { pw := pw
    loanEndDate := addMonths startDate (loanTenureYears * 12)
    fullEmiAtStart := fullEmiAtStart
    sortedDisbursals := sortByKey (fun d => getTime d.date) disbursals
    sortedRateChanges := sortByKey (fun r => getTime r.date) interestRateChanges
    sortedExtraPayments := sortByKey (fun p => getTime p.date) extraPayments }

/-- The amortization engine `calculateLoan`
(src/unnamed/part_001 lines 153-404). -/
def calculateLoan (pw : ℚ → ℚ → ℚ) (totalLoanApproved : ℚ) (loanTenureYears : Int)
    (initialInterestRate : ℚ) (startDate : YMD) (disbursals : List Disbursal)
    (interestRateChanges : List InterestRateChange := [])
    (extraPayments : List ExtraPayment := []) (fullEmiAtStart : ℚ := 0) :
    CalculationResult :=
  let _ := totalLoanApproved
  finalizeResult
    (runLoop (mkParams pw loanTenureYears startDate disbursals interestRateChanges
        extraPayments fullEmiAtStart)
      maxMonths 1 (initState initialInterestRate startDate))

/-- No disbursal event of the list is dated inside the one-month window
starting at `ms`. -/
def noDisbIn (dl : List Disbursal) (ms : YMD) : Prop :=
  ∀ d ∈ dl, ¬ (getTime ms ≤ getTime d.date ∧ getTime d.date < getTime (addMonths ms 1))
/-- No rate-change event of the list is dated inside the one-month window
starting at `ms`. -/
def noRateIn (rl : List InterestRateChange) (ms : YMD) : Prop :=
  ∀ r ∈ rl, ¬ (getTime ms ≤ getTime r.date ∧ getTime r.date < getTime (addMonths ms 1))
instance (dl : List Disbursal) (ms : YMD) : Decidable (noDisbIn dl ms) := by
  unfold noDisbIn
  infer_instance

instance (rl : List InterestRateChange) (ms : YMD) : Decidable (noRateIn rl ms) := by
  unfold noRateIn
  infer_instance

/-- The schedule-continuity property of C1, relative to the raw disbursal
list: adjacent rows agree whenever the later row's month window contains no
disbursal event. -/
def ChainOk (dl : List Disbursal) (rows : List EMIPayment) : Prop :=
  ∀ i : Nat, i + 1 < rows.length →
    noDisbIn dl ((rows.getD (i + 1) rowDefault).date) →
    (rows.getD i rowDefault).closingPrincipal =
      (rows.getD (i + 1) rowDefault).openingPrincipal
/-- The flat-interest property of C2, relative to the raw event lists: a row
whose month window contains no disbursal and no rate-change event carries
`interest = openingPrincipal × rate/12/100`. -/
def FlatOk (dl : List Disbursal) (rl : List InterestRateChange)
    (rows : List EMIPayment) : Prop :=
  ∀ r ∈ rows, noDisbIn dl r.date → noRateIn rl r.date →
    r.interest = r.openingPrincipal * (r.rate / 12 / 100)

/-- Sum of the amounts of a disbursal list. -/
def sumAmounts (dl : List Disbursal) : ℚ := (dl.map (fun d => d.amount)).sum

/-- Sum of the amounts of the disbursals whose timestamp is in the consumed
set. -/
def consumedSum (dl : List Disbursal) (proc : List Int) : ℚ :=
  ((dl.filter (fun d => proc.contains (getTime d.date))).map (fun d => d.amount)).sum
/-- Adjacent phases are contiguous: each phase's `endDate` is the next
phase's `startDate`. -/
def ContigOk (ps : List PhaseInfo) : Prop :=
  ∀ i : Nat, i + 1 < ps.length →
    (ps.getD i phDefault).endDate = some ((ps.getD (i + 1) phDefault).startDate)

/-! ## Concrete inputs for witnesses and counterexamples

`pwZero` stands in for `Math.pow`; every checked fact below goes through the
zero-rate branch or a clamped path, so its value never influences them. -/

def pwZero : ℚ → ℚ → ℚ := fun _ _ => 0

/-- 2024-01-01, the start date of all concrete runs. -/
def jan1 : YMD := ⟨2024, 1, 1⟩

/-- One disbursal of 100 at the start date, rate 0, one-year tenure, EMI
floor 60: two rows, month 2 consumes no disbursal, loan closes at month 3. -/
def calcW1 : CalculationResult :=
  calculateLoan pwZero 1000 1 0 jan1 [⟨jan1, 100⟩] [] [] 60

/-- Disbursals in months 1 and 2 (100 then 50), rate 0, EMI floor 200: each
month is fully paid, so month 2 reopens from a disbursal alone. -/
def calcTwoDisb : CalculationResult :=
  calculateLoan pwZero 1000 1 0 jan1 [⟨jan1, 100⟩, ⟨⟨2024, 2, 1⟩, 50⟩] [] [] 200

/-- A mid-month disbursal (2024-01-16) at a 10% rate: month 1 takes the
day-weighted interest branch. -/
def calcMidMonth : CalculationResult :=
  calculateLoan pwZero 1000 1 10 jan1 [⟨⟨2024, 1, 16⟩, 1000⟩] [] [] 1000

/-- A start-date disbursal at a 10% rate: month 2 contains no events and
takes the flat-interest branch with a nonzero rate. -/
def calcStartTen : CalculationResult :=
  calculateLoan pwZero 1000 1 10 jan1 [⟨jan1, 1000⟩] [] [] 1000

/-- The single disbursal dated strictly before the start date. -/
def dlPre : List Disbursal := [⟨⟨2023, 12, 31⟩, 50⟩]

/-- Input whose only disbursal predates `startDate`: the event is never
consumed, the loan never opens, and the loop runs to the iteration cap. -/
def calcPre : CalculationResult :=
  calculateLoan pwZero 1000 1 0 jan1 dlPre [] [] 0

/-- A single disbursal in month 2 (2024-02-01): the first phase opens only
then. -/
def calcFebDisb : CalculationResult :=
  calculateLoan pwZero 1000 1 0 jan1 [⟨⟨2024, 2, 1⟩, 100⟩] [] [] 200

/-- The extra-payment list of the disbursal-free run. -/
def elExtraOnly : List ExtraPayment := [⟨jan1, 5⟩]

/-- No disbursals, one extra payment of 5: `totalDisbursed` stays 0, the
termination check never fires and rows keep being emitted. -/
def calcExtraOnly : CalculationResult :=
  calculateLoan pwZero 1000 1 0 jan1 [] [] elExtraOnly 0

/-- Disbursal 50 and extra payment 100 in month 1: the reduction clamp fires
with the extra payment exceeding the balance. -/
def dlClamp : List Disbursal := [⟨jan1, 50⟩]

/-- The 100-unit extra payment of the clamp run. -/
def elClamp : List ExtraPayment := [⟨jan1, 100⟩]

/-- The clamp run (see `dlClamp`, `elClamp`). -/
def calcClamp : CalculationResult :=
  calculateLoan pwZero 1000 1 0 jan1 dlClamp [] elClamp 0

/-- The engine parameters of the clamp run. -/
def Pclamp : LoanParams := mkParams pwZero 1 jan1 dlClamp [] elClamp 0

/-- The engine parameters of the `calcW1` run. -/
def PW1 : LoanParams := mkParams pwZero 1 jan1 [⟨jan1, 100⟩] [] [] 60

/-- The engine parameters of the `calcPre` run. -/
def Ppre : LoanParams := mkParams pwZero 1 jan1 dlPre [] [] 0

/-- The engine parameters of the `calcExtraOnly` run. -/
def Pextra : LoanParams := mkParams pwZero 1 jan1 [] [] elExtraOnly 0

/-- The common initial state of the rate-0 concrete runs. -/
def st0 : LoanState := initState 0 jan1

/-- Disbursal 100, ten-year tenure, EMI floor 100 far above the theoretical
EMI, no extra-payment events: `totalExtraPaid` is positive anyway. -/
def calcSurplus : CalculationResult :=
  calculateLoan pwZero 1000 10 0 jan1 [⟨jan1, 100⟩] [] [] 100

/-! ## Helper lemmas -/

theorem insertByKey_perm {α : Type} (key : α → Int) (x : α) (l : List α) :
    List.Perm (insertByKey key x l) (x :: l) := by
  induction l with
  | nil => simp [insertByKey]
  | cons y ys ih =>
    by_cases h : key y < key x
    · simp only [insertByKey, if_pos h]
      exact ((ih.cons y).trans (List.Perm.swap x y ys))
    · simp [insertByKey, if_neg h]

theorem sortByKey_perm {α : Type} (key : α → Int) (l : List α) :
    List.Perm (sortByKey key l) l := by
  induction l with
  | nil => simp [sortByKey]
  | cons a l ih =>
    have : sortByKey key (a :: l) = insertByKey key a (sortByKey key l) := rfl
    rw [this]
    exact (insertByKey_perm key a (sortByKey key l)).trans (ih.cons a)

theorem mem_sortByKey {α : Type} (key : α → Int) (l : List α) (a : α) :
    a ∈ sortByKey key l ↔ a ∈ l :=
  (sortByKey_perm key l).mem_iff

theorem sortByKey_map_sum {α : Type} (key : α → Int) (f : α → ℚ) (l : List α) :
    ((sortByKey key l).map f).sum = (l.map f).sum :=
  ((sortByKey_perm key l).map f).sum_eq

theorem calculateLoan_eq (pw : ℚ → ℚ → ℚ) (tla : ℚ) (ty : Int) (rate0 : ℚ)
    (start : YMD) (dl : List Disbursal) (rl : List InterestRateChange)
    (el : List ExtraPayment) (fe : ℚ) :
    calculateLoan pw tla ty rate0 start dl rl el fe =
      finalizeResult (runLoop (mkParams pw ty start dl rl el fe) maxMonths 1
        (initState rate0 start)) := rfl

theorem stepMonth_break {P : LoanParams} {st : LoanState} (m : Nat)
    (h : breakCondition P st = true) :
    stepMonth P m st = (stateAfterEvents P st, true) := by
  simp [stepMonth, h]

theorem stepMonth_cont {P : LoanParams} {st : LoanState} (m : Nat)
    (h : breakCondition P st = false) :
    stepMonth P m st = (contState P m st, false) := by
  simp [stepMonth, h]

theorem runLoop_succ (P : LoanParams) (fuel m : Nat) (st : LoanState) :
    runLoop P (fuel + 1) m st =
      if (stepMonth P m st).2 then (stepMonth P m st).1
      else runLoop P fuel (m + 1) (stepMonth P m st).1 := rfl

/-- Induction principle for the loop: a strong property `Q` preserved by
row-emitting iterations yields a weak property `R` of the final state, as long
as `R` also holds after a terminating iteration. -/
theorem runLoop_inv (P : LoanParams) (Q R : LoanState → Prop)
    (hQR : ∀ st, Q st → R st)
    (hcont : ∀ m st, Q st → breakCondition P st = false → Q (contState P m st))
    (hbreak : ∀ st, Q st → breakCondition P st = true → R (stateAfterEvents P st)) :
    ∀ fuel m st, Q st → R (runLoop P fuel m st) := by
  intro fuel
  induction fuel with
  | zero => exact fun m st hq => hQR st hq
  | succ n ih =>
    intro m st hq
    rw [runLoop_succ]
    by_cases hb : breakCondition P st = true
    · rw [stepMonth_break m hb]
      exact hbreak st hq hb
    · rw [stepMonth_cont m (Bool.not_eq_true _ |>.mp hb)]
      exact ih (m + 1) (contState P m st) (hcont m st hq (Bool.not_eq_true _ |>.mp hb))

theorem stateAfterEvents_schedule (P : LoanParams) (st : LoanState) :
    (stateAfterEvents P st).schedule = st.schedule := rfl

theorem contState_schedule (P : LoanParams) (m : Nat) (st : LoanState) :
    (contState P m st).schedule = st.schedule ++ [rowOf P st m] := rfl

/-- The loop only ever appends to the schedule. -/
theorem runLoop_schedule_extends (P : LoanParams) :
    ∀ fuel m st, ∃ t, (runLoop P fuel m st).schedule = st.schedule ++ t := by
  intro fuel
  induction fuel with
  | zero => exact fun m st => ⟨[], (List.append_nil _).symm⟩
  | succ n ih =>
    intro m st
    rw [runLoop_succ]
    by_cases hb : breakCondition P st = true
    · rw [stepMonth_break m hb]
      exact ⟨[], by simp [stateAfterEvents_schedule]⟩
    · rw [stepMonth_cont m (Bool.not_eq_true _ |>.mp hb)]
      obtain ⟨t, ht⟩ := ih (m + 1) (contState P m st)
      refine ⟨[rowOf P st m] ++ t, ?_⟩
      simp only [contState_schedule] at ht
      simp [ht]

theorem monthDisbursalsOf_nil {P : LoanParams} {st : LoanState}
    (h : ∀ d ∈ P.sortedDisbursals, inWindow st (getTime d.date) = false) :
    monthDisbursalsOf P st = [] := by
  refine List.filter_eq_nil_iff.mpr ?_
  intro d hd
  simp [h d hd]

theorem monthRateChangesOf_nil {P : LoanParams} {st : LoanState}
    (h : ∀ r ∈ P.sortedRateChanges, inWindow st (getTime r.date) = false) :
    monthRateChangesOf P st = [] := by
  refine List.filter_eq_nil_iff.mpr ?_
  intro r hr
  simp [h r hr]

theorem stepMonth_snd (P : LoanParams) (m : Nat) (st : LoanState) :
    (stepMonth P m st).2 = breakCondition P st := by
  by_cases hb : breakCondition P st = true
  · rw [stepMonth_break m hb, hb]
  · rw [stepMonth_cont m (Bool.not_eq_true _ |>.mp hb), Bool.not_eq_true _ |>.mp hb]

theorem stepMonth_fst_of_cont {P : LoanParams} {m : Nat} {st st' : LoanState}
    (h : stepMonth P m st = (st', false)) :
    breakCondition P st = false ∧ st' = contState P m st := by
  have hb : breakCondition P st = false := by
    have := stepMonth_snd P m st
    rw [h] at this
    exact this.symm
  refine ⟨hb, ?_⟩
  have := stepMonth_cont m hb
  rw [h] at this
  exact (Prod.mk.injEq _ _ _ _ ▸ this).1

theorem contState_last_row (P : LoanParams) (m : Nat) (st : LoanState) :
    (contState P m st).schedule.getLast? = some (rowOf P st m) := by
  rw [contState_schedule]
  exact List.getLast?_concat _

theorem principalPaid1_nonneg (P : LoanParams) (st : LoanState) :
    0 ≤ principalPaid1 P st := by
  unfold principalPaid1
  split <;> [exact le_refl 0; linarith [not_lt.mp (by assumption : ¬ principalPaid0 P st < 0)]]

/-- The post-clamp extra amount is always the month's consumed extra capped
at the opening principal. -/
theorem extraF_eq_min (P : LoanParams) (st : LoanState) :
    extraF P st = min (extraSumOf P st) (openingOf P st) := by
  unfold extraF clampFired
  have hpp := principalPaid1_nonneg P st
  by_cases hc : openingOf P st < principalPaid1 P st + extraSumOf P st
  · simp only [hc, decide_eq_true_eq, if_pos hc]
    by_cases he : openingOf P st < extraSumOf P st
    · simp [he, min_eq_right (le_of_lt he)]
    · simp [he, min_eq_left (not_lt.mp he)]
  · rw [if_neg (by simpa using hc)]
    have : extraSumOf P st ≤ openingOf P st := by linarith [not_lt.mp hc]
    simp [min_eq_left this]

theorem pushPhase_length (l : List PhaseInfo) (ph : PhaseInfo) (ms : YMD) :
    (pushPhase l ph ms).length = l.length + 1 := by
  simp only [pushPhase]
  split <;> simp

theorem pushPhase_getLast (l : List PhaseInfo) (ph : PhaseInfo) (ms : YMD) :
    (pushPhase l ph ms).getLast? = some ph := by
  unfold pushPhase
  by_cases h : 1 < (l ++ [ph]).length
  · rw [if_pos h, List.getLast?_eq_getElem?, List.length_set,
      List.getElem?_set_ne (by simp at h ⊢; omega), ← List.getLast?_eq_getElem?,
      List.getLast?_concat]
  · rw [if_neg h, List.getLast?_concat]

theorem contState_phases (P : LoanParams) (m : Nat) (st : LoanState) :
    (contState P m st).phases = phasesAfterEvents P st := rfl

theorem rowOf_phase (P : LoanParams) (st : LoanState) (m : Nat) :
    (rowOf P st m).phase = phaseIndexAfterEvents P st := rfl

/-! ## Claim theorems -/

/-- C5 (confirmed): in any month where the zero-floored scheduled principal
plus the month's consumed extra payments exceed the outstanding principal,
the reduction is clamped to exactly the outstanding principal: the extra
payment is capped first (at the outstanding principal), the scheduled
principal is re-derived as the remainder so that the two sum exactly to the
outstanding balance, the row's recorded EMI is re-derived as principal plus
interest, and the row closes at exactly 0. -/
theorem C5_reduction_clamp (P : LoanParams) (m : Nat) (st st' : LoanState)
    (row : EMIPayment) (hstep : stepMonth P m st = (st', false))
    (hrow : st'.schedule.getLast? = some row)
    (hclamp : row.openingPrincipal < principalPaid1 P st + extraSumOf P st) :
    row.principalPaid = row.openingPrincipal - min (extraSumOf P st) row.openingPrincipal ∧
    row.principalPaid + min (extraSumOf P st) row.openingPrincipal = row.openingPrincipal ∧
    row.emi = row.principalPaid + row.interest ∧
    row.closingPrincipal = 0 := by
  obtain ⟨hb, rfl⟩ := stepMonth_fst_of_cont hstep
  rw [contState_last_row] at hrow
  obtain rfl : rowOf P st m = row := by injection hrow
  simp only [rowOf] at hclamp ⊢
  have hc : clampFired P st = true := by
    unfold clampFired
    exact decide_eq_true hclamp
  have hF : principalPaidF P st =
      openingOf P st - min (extraSumOf P st) (openingOf P st) := by
    unfold principalPaidF
    rw [if_pos hc]
    by_cases he : openingOf P st < extraSumOf P st
    · rw [if_pos he, min_eq_right (le_of_lt he)]
      ring
    · rw [if_neg he, min_eq_left (not_lt.mp he)]
  refine ⟨hF, by rw [hF]; ring, ?_, ?_⟩
  · unfold emiToPayF
    rw [if_pos hc]
  · unfold closingOf reductionF
    rw [if_pos hc]
    ring

/-- C9 (amended): every emitted row's `extraPaid` equals the month's consumed
extra-payment amount capped at the opening principal, plus — whenever the
recorded EMI exceeds the theoretical EMI — the surplus
`emi - max theoreticalEmi interest`; consequently `totalExtraPaid` counts
EMI surplus and can exceed the sum of the extra-payment events. -/
theorem C9_extra_paid (P : LoanParams) (m : Nat) (st st' : LoanState)
    (row : EMIPayment) (hstep : stepMonth P m st = (st', false))
    (hrow : st'.schedule.getLast? = some row) :
    (row.extraPaid = min (extraSumOf P st) row.openingPrincipal +
      (if row.theoreticalEmi < row.emi then row.emi - max row.theoreticalEmi row.interest
       else 0)) ∧
    0 < calcSurplus.summary.totalExtraPaid := by
  refine ⟨?_, by decide⟩
  obtain ⟨hb, rfl⟩ := stepMonth_fst_of_cont hstep
  rw [contState_last_row] at hrow
  obtain rfl : rowOf P st m = row := by injection hrow
  simp only [rowOf]
  rw [extraF_eq_min]
  rfl

/-- The phase-counter bookkeeping invariant behind C10:
`currentPhaseIndex` counts the phases, and the latest phase's `phaseIndex`
is one less than their number. -/
def PhaseIdxOk (st : LoanState) : Prop :=
  st.currentPhaseIndex = st.phases.length ∧
  ∀ q, st.phases.getLast? = some q → q.phaseIndex + 1 = st.phases.length

/-- C10 (confirmed): each emitted row's `phase` field equals the number of
phases opened so far (0 when none); it always equals the covering (most
recently opened) phase's 0-indexed `phaseIndex` plus one, and therefore it
never equals that `phaseIndex`. The phase-counter bookkeeping this relies on
holds initially and is preserved by the loop, so it holds at every emitted
row of every run. -/
theorem C10_phase_field (P : LoanParams) :
    (∀ m st st' row, stepMonth P m st = (st', false) →
      st'.schedule.getLast? = some row → PhaseIdxOk st →
      row.phase = st'.phases.length ∧
      (st'.phases = [] → row.phase = 0) ∧
      (∀ p, st'.phases.getLast? = some p →
        row.phase = p.phaseIndex + 1 ∧ row.phase ≠ p.phaseIndex)) ∧
    (∀ rate0 start, PhaseIdxOk (initState rate0 start)) ∧
    (∀ fuel m st, PhaseIdxOk st → PhaseIdxOk (runLoop P fuel m st)) := by
  have hafter : ∀ st : LoanState, PhaseIdxOk st →
      phaseIndexAfterEvents P st = (phasesAfterEvents P st).length ∧
      ∀ q, (phasesAfterEvents P st).getLast? = some q →
        q.phaseIndex + 1 = (phasesAfterEvents P st).length := by
    intro st hq
    unfold phaseIndexAfterEvents phasesAfterEvents
    by_cases ht : phaseTriggered P st = true
    · rw [if_pos ht, if_pos ht, pushPhase_length]
      refine ⟨by rw [hq.1], ?_⟩
      intro q hp
      rw [pushPhase_getLast] at hp
      obtain rfl : newPhaseOf P st = q := by injection hp
      show st.currentPhaseIndex + 1 = st.phases.length + 1
      rw [hq.1]
    · rw [if_neg ht, if_neg ht]
      exact hq
  refine ⟨?_, ?_, ?_⟩
  · intro m st st' row hstep hrow hq
    obtain ⟨hb, rfl⟩ := stepMonth_fst_of_cont hstep
    rw [contState_last_row] at hrow
    obtain rfl : rowOf P st m = row := by injection hrow
    rw [contState_phases, rowOf_phase]
    obtain ⟨h1, h2⟩ := hafter st hq
    refine ⟨h1, ?_, ?_⟩
    · intro hemp
      rw [h1, hemp]
      rfl
    · intro p hp
      have := h2 p hp
      omega
  · intro rate0 start
    exact ⟨rfl, by intro q hq; exact Option.noConfusion hq⟩
  · refine runLoop_inv P PhaseIdxOk PhaseIdxOk (fun _ h => h) ?_ ?_
    · intro m st hq _
      have := hafter st hq
      exact ⟨this.1, this.2⟩
    · intro st hq _
      have := hafter st hq
      exact ⟨this.1, this.2⟩

/-- C7 (amended): a full-balance extra payment closes the loan. First: in any
month whose consumed extra payments total at least the outstanding principal,
the emitted row closes at exactly 0. Second: once the outstanding principal is
within the termination epsilon (0.01), at least one disbursal amount has been
consumed (`totalDisbursed > 0`) and every disbursal event is consumed, the
next iteration hits the termination check — which runs before interest
accrual — so it emits no row and the loop stops: the schedule never grows
again. -/
theorem C7_full_extra_closes (P : LoanParams) :
    (∀ m st st' row, stepMonth P m st = (st', false) →
      st'.schedule.getLast? = some row →
      openingOf P st ≤ extraSumOf P st → row.closingPrincipal = 0) ∧
    (∀ fuel m st, st.currentPrincipal ≤ 1/100 → 0 < st.totalDisbursed →
      (∀ d ∈ P.sortedDisbursals, st.processedDisbursals.contains (getTime d.date) = true) →
      (stepMonth P m st).2 = true ∧
      (runLoop P (fuel + 1) m st).schedule = st.schedule) := by
  constructor
  · intro m st st' row hstep hrow hfull
    obtain ⟨hb, rfl⟩ := stepMonth_fst_of_cont hstep
    rw [contState_last_row] at hrow
    obtain rfl : rowOf P st m = row := by injection hrow
    show closingOf P st = 0
    have hpp := principalPaid1_nonneg P st
    unfold closingOf reductionF clampFired
    by_cases hc : openingOf P st < principalPaid1 P st + extraSumOf P st
    · rw [if_pos (by exact decide_eq_true hc)]
      ring
    · rw [if_neg (by simpa using hc)]
      have : principalPaid1 P st + extraSumOf P st ≤ openingOf P st := not_lt.mp hc
      linarith
  · intro fuel m st heps htd hproc
    have hnil : monthDisbursalsOf P st = [] := by
      refine List.filter_eq_nil_iff.mpr ?_
      intro d hd h
      rw [Bool.and_eq_true, hproc d hd] at h
      exact absurd h.2 (by simp)
    have hds : disbSumOf P st = 0 := by
      unfold disbSumOf
      rw [hnil]
      rfl
    have hbreak : breakCondition P st = true := by
      unfold breakCondition
      refine Bool.and_eq_true _ _ |>.mpr ⟨Bool.and_eq_true _ _ |>.mpr ⟨?_, ?_⟩, ?_⟩
      · exact decide_eq_true (by unfold openingOf; rw [hds]; simpa using heps)
      · exact decide_eq_true (by unfold totalDisbursedAfter; rw [hds]; simpa using htd)
      · refine List.all_eq_true.mpr ?_
        intro d hd
        unfold processedDisbAfter
        rw [hnil]
        simpa using hproc d hd
    refine ⟨by rw [stepMonth_snd, hbreak], ?_⟩
    rw [runLoop_succ, stepMonth_break m hbreak]
    simp [stateAfterEvents_schedule]

theorem disbSumOf_nonneg {P : LoanParams} (st : LoanState)
    (h : ∀ d ∈ P.sortedDisbursals, 0 ≤ d.amount) : 0 ≤ disbSumOf P st := by
  refine List.sum_nonneg ?_
  intro x hx
  simp only [List.mem_map] at hx
  obtain ⟨d, hd, rfl⟩ := hx
  exact h d (List.mem_of_mem_filter hd)

theorem extraSumOf_nonneg {P : LoanParams} (st : LoanState)
    (h : ∀ e ∈ P.sortedExtraPayments, 0 ≤ e.amount) : 0 ≤ extraSumOf P st := by
  refine List.sum_nonneg ?_
  intro x hx
  simp only [List.mem_map] at hx
  obtain ⟨e, he, rfl⟩ := hx
  exact h e (List.mem_of_mem_filter he)

/-- Core bound of the reduction clamp: with non-negative inputs the month's
closing principal stays within `[0, openingPrincipal]`. -/
theorem step_closing_bounds {P : LoanParams} (st : LoanState)
    (hP : 0 ≤ st.currentPrincipal)
    (hd : ∀ d ∈ P.sortedDisbursals, 0 ≤ d.amount)
    (he : ∀ e ∈ P.sortedExtraPayments, 0 ≤ e.amount) :
    0 ≤ closingOf P st ∧ closingOf P st ≤ openingOf P st := by
  have hop : 0 ≤ openingOf P st := by
    unfold openingOf
    have := disbSumOf_nonneg st hd
    linarith
  have hex := extraSumOf_nonneg st he
  have hpp := principalPaid1_nonneg P st
  unfold closingOf reductionF clampFired
  by_cases hc : openingOf P st < principalPaid1 P st + extraSumOf P st
  · rw [if_pos (by exact decide_eq_true hc)]
    constructor <;> linarith
  · rw [if_neg (by simpa using hc)]
    have := not_lt.mp hc
    constructor <;> linarith

theorem finalizeResult_schedule (st : LoanState) :
    (finalizeResult st).schedule = st.schedule := rfl

/-- C8 (confirmed): with non-negative monetary inputs, every emitted row has
`0 ≤ closingPrincipal ≤ openingPrincipal`. -/
theorem C8_closing_bounds (pw : ℚ → ℚ → ℚ) (tla : ℚ) (ty : Int) (rate0 : ℚ)
    (start : YMD) (dl : List Disbursal) (rl : List InterestRateChange)
    (el : List ExtraPayment) (fe : ℚ)
    (hd : ∀ d ∈ dl, 0 ≤ d.amount) (he : ∀ e ∈ el, 0 ≤ e.amount) (_hf : 0 ≤ fe) :
    ∀ row ∈ (calculateLoan pw tla ty rate0 start dl rl el fe).schedule,
      0 ≤ row.closingPrincipal ∧ row.closingPrincipal ≤ row.openingPrincipal := by
  intro row hrow
  set P := mkParams pw ty start dl rl el fe with hP
  have hd' : ∀ d ∈ P.sortedDisbursals, 0 ≤ d.amount := by
    intro d hdm
    exact hd d ((mem_sortByKey _ dl d).mp hdm)
  have he' : ∀ e ∈ P.sortedExtraPayments, 0 ≤ e.amount := by
    intro e hem
    exact he e ((mem_sortByKey _ el e).mp hem)
  have key : ∀ r ∈ (runLoop P maxMonths 1 (initState rate0 start)).schedule,
      0 ≤ r.closingPrincipal ∧ r.closingPrincipal ≤ r.openingPrincipal := by
    refine runLoop_inv P
      (fun st => 0 ≤ st.currentPrincipal ∧
        ∀ r ∈ st.schedule, 0 ≤ r.closingPrincipal ∧ r.closingPrincipal ≤ r.openingPrincipal)
      (fun st => ∀ r ∈ st.schedule,
        0 ≤ r.closingPrincipal ∧ r.closingPrincipal ≤ r.openingPrincipal)
      (fun st hq => hq.2) ?_ ?_ maxMonths 1 (initState rate0 start)
      ⟨le_refl 0, by intro r hr; cases hr⟩
    · intro m st hq _
      obtain ⟨hP0, hrows⟩ := hq
      have hb := step_closing_bounds st hP0 hd' he'
      constructor
      · exact hb.1
      · intro r hr
        rw [contState_schedule] at hr
        rcases List.mem_append.mp hr with h | h
        · exact hrows r h
        · obtain rfl : r = rowOf P st m := by simpa using h
          exact ⟨hb.1, hb.2⟩
    · intro st hq _
      rw [stateAfterEvents_schedule]
      exact hq.2
  exact key row hrow



theorem inWindow_eq_false {st : LoanState} {t : Int}
    (h : ¬ (getTime st.currentDate ≤ t ∧ t < getTime (addMonths st.currentDate 1))) :
    inWindow st t = false := by
  unfold inWindow monthEndOf
  rcases not_and_or.mp h with h1 | h1
  · rw [decide_eq_false h1, Bool.false_and]
  · rw [decide_eq_false h1, Bool.and_false]

theorem monthDisbursalsOf_nil_of_noDisbIn {pw : ℚ → ℚ → ℚ} {ty : Int} {start : YMD}
    {dl : List Disbursal} {rl : List InterestRateChange} {el : List ExtraPayment}
    {fe : ℚ} {st : LoanState} (h : noDisbIn dl st.currentDate) :
    monthDisbursalsOf (mkParams pw ty start dl rl el fe) st = [] := by
  refine monthDisbursalsOf_nil ?_
  intro d hd
  exact inWindow_eq_false (h d ((mem_sortByKey _ dl d).mp hd))

theorem monthRateChangesOf_nil_of_noRateIn {pw : ℚ → ℚ → ℚ} {ty : Int} {start : YMD}
    {dl : List Disbursal} {rl : List InterestRateChange} {el : List ExtraPayment}
    {fe : ℚ} {st : LoanState} (h : noRateIn rl st.currentDate) :
    monthRateChangesOf (mkParams pw ty start dl rl el fe) st = [] := by
  refine monthRateChangesOf_nil ?_
  intro r hr
  exact inWindow_eq_false (h r ((mem_sortByKey _ rl r).mp hr))


theorem rowOf_date (P : LoanParams) (st : LoanState) (m : Nat) :
    (rowOf P st m).date = st.currentDate := rfl

/-- C1 (amended): adjacent schedule rows satisfy
`closingPrincipal = openingPrincipal` whenever the later row's month consumed
no disbursal; a consumed disbursal is added to `openingPrincipal` before the
row is emitted, so continuity holds up to that addition. -/
theorem C1_continuity (pw : ℚ → ℚ → ℚ) (tla : ℚ) (ty : Int) (rate0 : ℚ)
    (start : YMD) (dl : List Disbursal) (rl : List InterestRateChange)
    (el : List ExtraPayment) (fe : ℚ) (i : Nat)
    (hi : i + 1 < (calculateLoan pw tla ty rate0 start dl rl el fe).schedule.length)
    (hnd : noDisbIn dl
      (((calculateLoan pw tla ty rate0 start dl rl el fe).schedule.getD (i + 1)
        rowDefault).date)) :
    ((calculateLoan pw tla ty rate0 start dl rl el fe).schedule.getD i
      rowDefault).closingPrincipal =
    ((calculateLoan pw tla ty rate0 start dl rl el fe).schedule.getD (i + 1)
      rowDefault).openingPrincipal := by
  set P := mkParams pw ty start dl rl el fe with hPdef
  have key : ChainOk dl (runLoop P maxMonths 1 (initState rate0 start)).schedule := by
    refine runLoop_inv P
      (fun st => ChainOk dl st.schedule ∧
        ∀ r, st.schedule.getLast? = some r → r.closingPrincipal = st.currentPrincipal)
      (fun st => ChainOk dl st.schedule)
      (fun st hq => hq.1) ?_ ?_ maxMonths 1 (initState rate0 start)
      ⟨by intro j hj _; simp [initState] at hj, by intro r hr; cases hr⟩
    · intro m st hq _
      obtain ⟨hchain, hlast⟩ := hq
      constructor
      · -- chain property for the extended schedule
        intro j hj hw
        rw [contState_schedule] at hj hw ⊢
        rw [List.length_append, List.length_cons, List.length_nil] at hj
        by_cases hcase : j + 1 < st.schedule.length
        · rw [List.getD_append _ _ _ _ hcase] at hw
          rw [List.getD_append _ _ _ _ (by omega), List.getD_append _ _ _ _ hcase]
          exact hchain j hcase hw
        · have hj1 : j + 1 = st.schedule.length := by omega
          have hgj1 : (st.schedule ++ [rowOf P st m]).getD (j + 1) rowDefault =
              rowOf P st m := by
            rw [List.getD_append_right _ _ _ _ (by omega), hj1]
            simp
          rw [hgj1] at hw ⊢
          have hjlt : j < st.schedule.length := by omega
          rw [List.getD_append _ _ _ _ hjlt]
          rw [rowOf_date] at hw
          have hnil : monthDisbursalsOf P st = [] := by
            rw [hPdef]
            exact monthDisbursalsOf_nil_of_noDisbIn hw
          have hopen : (rowOf P st m).openingPrincipal = st.currentPrincipal := by
            show openingOf P st = st.currentPrincipal
            unfold openingOf disbSumOf
            rw [hnil]
            show st.currentPrincipal + 0 = st.currentPrincipal
            ring
          rw [hopen]
          rw [List.getD_eq_getElem _ _ hjlt]
          refine hlast _ ?_
          rw [List.getLast?_eq_getElem?]
          have hj' : st.schedule.length - 1 = j := by omega
          rw [hj']
          exact List.getElem?_eq_getElem hjlt
      · -- the appended row closes at the new current principal
        intro r hr
        rw [contState_schedule, List.getLast?_concat] at hr
        obtain rfl : rowOf P st m = r := by injection hr
        rfl
    · intro st hq _
      rw [stateAfterEvents_schedule]
      exact hq.1
  exact key i hi hnd


/-- C2 (amended): in every month whose window contains no disbursal and no
rate-change event, the charged interest is the flat monthly rate on the
opening balance, `openingPrincipal × rate/12/100`; months containing such
events instead use a day-weighted computation. -/
theorem C2_flat_interest (pw : ℚ → ℚ → ℚ) (tla : ℚ) (ty : Int) (rate0 : ℚ)
    (start : YMD) (dl : List Disbursal) (rl : List InterestRateChange)
    (el : List ExtraPayment) (fe : ℚ) :
    FlatOk dl rl (calculateLoan pw tla ty rate0 start dl rl el fe).schedule := by
  set P := mkParams pw ty start dl rl el fe with hPdef
  have key : FlatOk dl rl (runLoop P maxMonths 1 (initState rate0 start)).schedule := by
    refine runLoop_inv P
      (fun st => FlatOk dl rl st.schedule) (fun st => FlatOk dl rl st.schedule)
      (fun st hq => hq) ?_ ?_ maxMonths 1 (initState rate0 start)
      (by intro r hr; cases hr)
    · intro m st hq _
      intro r hr hndisb hnrate
      rw [contState_schedule] at hr
      rcases List.mem_append.mp hr with h | h
      · exact hq r h hndisb hnrate
      · obtain rfl : r = rowOf P st m := by simpa using h
        rw [rowOf_date] at hndisb hnrate
        have hdn : monthDisbursalsOf P st = [] := by
          rw [hPdef]
          exact monthDisbursalsOf_nil_of_noDisbIn hndisb
        have hrn : monthRateChangesOf P st = [] := by
          rw [hPdef]
          exact monthRateChangesOf_nil_of_noRateIn hnrate
        show interestOf P st = openingOf P st * (newRateOf P st / 12 / 100)
        unfold interestOf eventsOf
        rw [hdn, hrn]
        rfl
    · intro st hq _
      rw [stateAfterEvents_schedule]
      exact hq
  exact key


theorem sum_filter_or (f : Disbursal → ℚ) (p q : Disbursal → Bool) :
    ∀ l : List Disbursal,
      ((l.filter (fun d => p d || q d)).map f).sum =
        ((l.filter p).map f).sum + ((l.filter (fun d => !p d && q d)).map f).sum := by
  intro l
  induction l with
  | nil => simp
  | cons a l ih =>
    rcases hp : p a <;> rcases hq : q a <;>
      simp [List.filter_cons, hp, hq, ih] <;> ring

/-- Consuming the month's matched disbursals adds exactly their total to the
consumed sum: matching is a property of the timestamp alone, so marking the
matched timestamps consumes exactly the matched entries. -/
theorem consumedSum_step (P : LoanParams) (st : LoanState) :
    consumedSum P.sortedDisbursals (processedDisbAfter P st) =
      consumedSum P.sortedDisbursals st.processedDisbursals + disbSumOf P st := by
  unfold consumedSum processedDisbAfter disbSumOf
  have hsplit :
      P.sortedDisbursals.filter (fun d =>
          (st.processedDisbursals ++
            (monthDisbursalsOf P st).map (fun d => getTime d.date)).contains (getTime d.date)) =
      P.sortedDisbursals.filter (fun d =>
          st.processedDisbursals.contains (getTime d.date) ||
          ((monthDisbursalsOf P st).map (fun d => getTime d.date)).contains (getTime d.date)) := by
    refine List.filter_congr ?_
    intro d _
    rw [List.contains_eq_any_beq, List.contains_eq_any_beq, List.contains_eq_any_beq,
      List.any_append]
  rw [hsplit, sum_filter_or]
  congr 1
  have hsame :
      P.sortedDisbursals.filter (fun d =>
          !st.processedDisbursals.contains (getTime d.date) &&
          ((monthDisbursalsOf P st).map (fun d => getTime d.date)).contains (getTime d.date)) =
      monthDisbursalsOf P st := by
    show _ = P.sortedDisbursals.filter _
    refine List.filter_congr ?_
    intro d hd
    rcases hproc : st.processedDisbursals.contains (getTime d.date)
    · rcases hwin : inWindow st (getTime d.date)
      · -- not in the window: no matched disbursal shares this timestamp
        simp only [hproc, Bool.not_false, Bool.true_and, hwin, Bool.false_and]
        refine Bool.eq_false_iff.mpr ?_
        intro hcon
        rw [List.contains_eq_any_beq, List.any_eq_true] at hcon
        obtain ⟨t, ht, hbeq⟩ := hcon
        rw [List.mem_map] at ht
        obtain ⟨d', hd', rfl⟩ := ht
        have hwin' := List.of_mem_filter hd'
        rw [Bool.and_eq_true] at hwin'
        have heqt : getTime d'.date = getTime d.date := by
          have := of_decide_eq_true (by simpa using hbeq)
          exact this.symm
        rw [heqt, hwin] at hwin'
        exact absurd hwin'.1 (by simp)
      · -- in the window and unconsumed: the entry itself is matched
        have hd2 : d ∈ monthDisbursalsOf P st := by
          rw [monthDisbursalsOf, List.mem_filter]
          refine ⟨hd, ?_⟩
          rw [hwin, hproc]
          rfl
        have hcon : ((monthDisbursalsOf P st).map (fun d => getTime d.date)).contains
            (getTime d.date) = true := by
          rw [List.contains_eq_any_beq, List.any_eq_true]
          exact ⟨getTime d.date, List.mem_map_of_mem _ hd2, by simp⟩
        rw [hcon]
        simp [hproc, hwin]
    · simp only [hproc, Bool.not_true, Bool.false_and, Bool.and_false]
  rw [hsame]

theorem contState_totalDisbursed (P : LoanParams) (m : Nat) (st : LoanState) :
    (contState P m st).totalDisbursed = totalDisbursedAfter P st := rfl

theorem contState_processedDisb (P : LoanParams) (m : Nat) (st : LoanState) :
    (contState P m st).processedDisbursals = processedDisbAfter P st := rfl

theorem stateAfterEvents_totalDisbursed (P : LoanParams) (st : LoanState) :
    (stateAfterEvents P st).totalDisbursed = totalDisbursedAfter P st := rfl

theorem stateAfterEvents_processedDisb (P : LoanParams) (st : LoanState) :
    (stateAfterEvents P st).processedDisbursals = processedDisbAfter P st := rfl

theorem runLoop_succ_break {P : LoanParams} {m : Nat} {st : LoanState} (fuel : Nat)
    (hb : breakCondition P st = true) :
    runLoop P (fuel + 1) m st = stateAfterEvents P st := by
  rw [runLoop_succ, stepMonth_break m hb]
  rfl

theorem runLoop_succ_cont {P : LoanParams} {m : Nat} {st : LoanState} (fuel : Nat)
    (hb : breakCondition P st = false) :
    runLoop P (fuel + 1) m st = runLoop P fuel (m + 1) (contState P m st) := by
  rw [runLoop_succ, stepMonth_cont m hb]
  rfl

theorem consumedSum_all {dl : List Disbursal} {proc : List Int}
    (h : ∀ d ∈ dl, proc.contains (getTime d.date) = true) :
    consumedSum dl proc = sumAmounts dl := by
  unfold consumedSum sumAmounts
  rw [List.filter_eq_self.mpr h]

theorem breakCondition_all {P : LoanParams} {st : LoanState}
    (h : breakCondition P st = true) :
    ∀ d ∈ P.sortedDisbursals, (processedDisbAfter P st).contains (getTime d.date) = true := by
  unfold breakCondition at h
  rw [Bool.and_eq_true, Bool.and_eq_true] at h
  exact List.all_eq_true.mp h.2

/-- If the loop makes fewer iterations than its fuel allows (i.e. it breaks),
all disbursals were consumed, so the disbursed total equals the full input
sum. -/
theorem runLoop_closed_totalDisb (P : LoanParams) :
    ∀ fuel m st,
      st.totalDisbursed = consumedSum P.sortedDisbursals st.processedDisbursals →
      (runLoop P fuel m st).schedule.length < st.schedule.length + fuel →
      (runLoop P fuel m st).totalDisbursed = sumAmounts P.sortedDisbursals := by
  intro fuel
  induction fuel with
  | zero =>
    intro m st _ hlen
    have hofz : (runLoop P 0 m st).schedule.length = st.schedule.length := rfl
    omega
  | succ n ih =>
    intro m st hinv hlen
    by_cases hb : breakCondition P st = true
    · rw [runLoop_succ_break n hb]
      rw [stateAfterEvents_totalDisbursed]
      show st.totalDisbursed + disbSumOf P st = _
      rw [hinv]
      rw [← consumedSum_step]
      exact consumedSum_all (breakCondition_all hb)
    · have hb' : breakCondition P st = false := Bool.not_eq_true _ |>.mp hb
      rw [runLoop_succ_cont n hb'] at hlen ⊢
      refine ih (m + 1) (contState P m st) ?_ ?_
      · rw [contState_totalDisbursed, contState_processedDisb, consumedSum_step]
        show st.totalDisbursed + disbSumOf P st = _
        rw [hinv]
      · rw [contState_schedule, List.length_append]
        have : st.schedule.length + [rowOf P st m].length + n =
            st.schedule.length + (n + 1) := by
          simp
          omega
        rw [this]
        exact hlen

/-- C4 (amended): whenever the loan actually closes before the iteration cap
(the schedule is shorter than `maxMonths` rows), `summary.totalDisbursed`
equals the sum of all disbursal amounts; in general it equals the sum of the
consumed disbursals only. -/
theorem C4_total_disbursed (pw : ℚ → ℚ → ℚ) (tla : ℚ) (ty : Int) (rate0 : ℚ)
    (start : YMD) (dl : List Disbursal) (rl : List InterestRateChange)
    (el : List ExtraPayment) (fe : ℚ)
    (hclosed : (calculateLoan pw tla ty rate0 start dl rl el fe).schedule.length < maxMonths) :
    (calculateLoan pw tla ty rate0 start dl rl el fe).summary.totalDisbursed =
      sumAmounts dl := by
  set P := mkParams pw ty start dl rl el fe with hPdef
  have h0 : (initState rate0 start).totalDisbursed =
      consumedSum P.sortedDisbursals (initState rate0 start).processedDisbursals := by
    show (0 : ℚ) = consumedSum P.sortedDisbursals []
    unfold consumedSum
    rw [List.filter_eq_nil_iff.mpr (by intro d _; simp)]
    rfl
  have hmain := runLoop_closed_totalDisb P maxMonths 1 (initState rate0 start) h0
    (by simpa using hclosed)
  calc (calculateLoan pw tla ty rate0 start dl rl el fe).summary.totalDisbursed
      = (runLoop P maxMonths 1 (initState rate0 start)).totalDisbursed := rfl
    _ = sumAmounts P.sortedDisbursals := hmain
    _ = sumAmounts dl := sortByKey_map_sum _ _ dl

theorem getD_default_irrel {α : Type} (l : List α) (i : Nat) (d1 d2 : α)
    (h : i < l.length) : l.getD i d1 = l.getD i d2 := by
  rw [List.getD_eq_getElem _ _ h, List.getD_eq_getElem _ _ h]

theorem getD_set_ne {α : Type} (l : List α) (i j : Nat) (x d : α) (h : i ≠ j) :
    (l.set i x).getD j d = l.getD j d := by
  rw [List.getD_eq_getD_get?, List.getD_eq_getD_get?, List.get?_eq_getElem?,
    List.get?_eq_getElem?, List.getElem?_set_ne h]

theorem getD_set_self {α : Type} (l : List α) (i : Nat) (x d : α) (h : i < l.length) :
    (l.set i x).getD i d = x := by
  rw [List.getD_eq_getD_get?, List.get?_eq_getElem?, List.getElem?_set_eq_of_lt x h]
  rfl

theorem pushPhase_eq_nil (ph : PhaseInfo) (ms : YMD) : pushPhase [] ph ms = [ph] := rfl

theorem pushPhase_eq_cons (l : List PhaseInfo) (ph : PhaseInfo) (ms : YMD)
    (h : l ≠ []) :
    pushPhase l ph ms =
      l.set (l.length - 1)
        { l.getD (l.length - 1) ph with endDate := some ms } ++ [ph] := by
  have hl : 0 < l.length := List.length_pos.mpr h
  simp only [pushPhase, List.length_append, List.length_cons, List.length_nil]
  rw [if_pos (by omega)]
  have hidx : l.length + (0 + 1) - 2 = l.length - 1 := by omega
  rw [hidx]
  rw [List.set_append_left _ _ (by omega)]
  congr 2
  rw [List.getD_append _ _ _ _ (by omega)]


theorem pushPhase_contig {l : List PhaseInfo} {ph : PhaseInfo} {ms : YMD}
    (hc : ContigOk l) (hph : ph.startDate = ms) :
    ContigOk (pushPhase l ph ms) := by
  rcases hl : l with _ | ⟨a, l'⟩
  · rw [pushPhase_eq_nil]
    intro i hi
    simp at hi
  · rw [← hl, pushPhase_eq_cons l ph ms (by rw [hl]; simp)]
    have hlpos : 0 < l.length := by rw [hl]; simp
    intro i hi
    rw [List.length_append, List.length_set, List.length_cons, List.length_nil] at hi
    by_cases hlt : i + 1 < l.length
    · rw [List.getD_append _ _ _ _ (by rw [List.length_set]; omega),
        List.getD_append _ _ _ _ (by rw [List.length_set]; omega)]
      by_cases hi1 : i + 1 = l.length - 1
      · rw [getD_set_ne _ _ _ _ _ (by omega), hi1,
          getD_set_self _ _ _ _ (by omega)]
        have : ({ l.getD (l.length - 1) ph with endDate := some ms }).startDate =
            (l.getD (l.length - 1) phDefault).startDate := by
          rw [getD_default_irrel l (l.length - 1) ph phDefault (by omega)]
        rw [this, ← hi1]
        exact hc i hlt
      · rw [getD_set_ne _ _ _ _ _ (by omega), getD_set_ne _ _ _ _ _ (by omega)]
        exact hc i hlt
    · have hi1 : i + 1 = l.length := by omega
      rw [List.getD_append _ _ _ _ (by rw [List.length_set]; omega),
        List.getD_append_right _ _ _ _ (by rw [List.length_set]; omega),
        List.length_set]
      have hz : i + 1 - l.length = 0 := by omega
      rw [hz]
      have hi' : i = l.length - 1 := by omega
      rw [hi', getD_set_self _ _ _ _ (by omega)]
      show some ms = some ph.startDate
      rw [hph]

theorem pushPhase_getD0 (l : List PhaseInfo) (ph : PhaseInfo) (ms : YMD)
    (h : l ≠ []) :
    ((pushPhase l ph ms).getD 0 phDefault).startDate =
      (l.getD 0 phDefault).startDate := by
  have hl : 0 < l.length := List.length_pos.mpr h
  rw [pushPhase_eq_cons l ph ms h]
  rw [List.getD_append _ _ _ _ (by rw [List.length_set]; omega)]
  by_cases h0 : l.length - 1 = 0
  · rw [h0, getD_set_self _ _ _ _ (by omega)]
    show (l.getD 0 ph).startDate = (l.getD 0 phDefault).startDate
    rw [getD_default_irrel l 0 ph phDefault (by omega)]
  · rw [getD_set_ne _ _ _ _ _ h0]

theorem pushPhase_ne_nil (l : List PhaseInfo) (ph : PhaseInfo) (ms : YMD) :
    pushPhase l ph ms ≠ [] := by
  intro h
  have := congrArg List.length h
  rw [pushPhase_length] at this
  simp at this

theorem stateAfterEvents_phases (P : LoanParams) (st : LoanState) :
    (stateAfterEvents P st).phases = phasesAfterEvents P st := rfl

theorem newPhaseOf_startDate (P : LoanParams) (st : LoanState) :
    (newPhaseOf P st).startDate = st.currentDate := rfl

theorem phasesAfterEvents_contig {P : LoanParams} {st : LoanState}
    (hc : ContigOk st.phases) : ContigOk (phasesAfterEvents P st) := by
  unfold phasesAfterEvents
  split
  · exact pushPhase_contig hc (newPhaseOf_startDate P st)
  · exact hc

/-- Contiguity of the phase list is a loop invariant. -/
theorem runLoop_contig (P : LoanParams) :
    ∀ fuel m st, ContigOk st.phases → ContigOk (runLoop P fuel m st).phases := by
  refine runLoop_inv P (fun st => ContigOk st.phases) (fun st => ContigOk st.phases)
    (fun _ h => h) ?_ ?_
  · intro m st hq _
    rw [contState_phases]
    exact phasesAfterEvents_contig hq
  · intro st hq _
    rw [stateAfterEvents_phases]
    exact phasesAfterEvents_contig hq

theorem finalizeResult_phases (st : LoanState) :
    (finalizeResult st).phases =
      if 0 < st.phases.length then
        st.phases.set (st.phases.length - 1)
          { st.phases.getD (st.phases.length - 1) phDefault with
            endDate := some st.currentDate }
      else st.phases := rfl

theorem finalize_contig {st : LoanState} (hc : ContigOk st.phases) :
    ContigOk (finalizeResult st).phases := by
  rw [finalizeResult_phases]
  by_cases hp : 0 < st.phases.length
  · rw [if_pos hp]
    intro i hi
    rw [List.length_set] at hi
    by_cases hi1 : i + 1 = st.phases.length - 1
    · rw [getD_set_ne _ _ _ _ _ (by omega), hi1, getD_set_self _ _ _ _ (by omega)]
      show _ = some ((st.phases.getD (st.phases.length - 1) phDefault).startDate)
      rw [← hi1]
      exact hc i hi
    · rw [getD_set_ne _ _ _ _ _ (by omega), getD_set_ne _ _ _ _ _ (by omega)]
      exact hc i hi
  · rw [if_neg hp]
    exact hc

theorem finalize_last_endDate {st : LoanState} :
    ∀ p, (finalizeResult st).phases.getLast? = some p →
      p.endDate = some st.currentDate := by
  intro p hp
  rw [finalizeResult_phases] at hp
  by_cases h0 : 0 < st.phases.length
  · rw [if_pos h0, List.getLast?_eq_getElem?, List.length_set,
      List.getElem?_set_eq_of_lt _ (by omega)] at hp
    injection hp with hx
    rw [← hx]
  · rw [if_neg h0] at hp
    have hnil : st.phases = [] := List.length_eq_zero.mp (by omega)
    rw [hnil] at hp
    cases hp

theorem finalize_getD0 {st : LoanState} (h : st.phases ≠ []) :
    (finalizeResult st).phases ≠ [] ∧
    ((finalizeResult st).phases.getD 0 phDefault).startDate =
      (st.phases.getD 0 phDefault).startDate := by
  have hl : 0 < st.phases.length := List.length_pos.mpr h
  rw [finalizeResult_phases, if_pos hl]
  constructor
  · intro hk
    have h2 := congrArg List.length hk
    rw [List.length_set] at h2
    have h3 : st.phases.length = 0 := by simpa using h2
    omega
  · by_cases h0 : st.phases.length - 1 = 0
    · rw [h0, getD_set_self _ _ _ _ (by omega)]
    · rw [getD_set_ne _ _ _ _ _ h0]

theorem phasesAfterEvents_phase0 {P : LoanParams} {st : LoanState} {c : YMD}
    (h : st.phases ≠ [] ∧ (st.phases.getD 0 phDefault).startDate = c) :
    phasesAfterEvents P st ≠ [] ∧
    ((phasesAfterEvents P st).getD 0 phDefault).startDate = c := by
  unfold phasesAfterEvents
  split
  · refine ⟨pushPhase_ne_nil _ _ _, ?_⟩
    rw [pushPhase_getD0 _ _ _ h.1]
    exact h.2
  · exact h

/-- Non-emptiness and the first phase's start date are loop invariants. -/
theorem runLoop_phase0 (P : LoanParams) (c : YMD) :
    ∀ fuel m st,
      (st.phases ≠ [] ∧ (st.phases.getD 0 phDefault).startDate = c) →
      ((runLoop P fuel m st).phases ≠ [] ∧
        ((runLoop P fuel m st).phases.getD 0 phDefault).startDate = c) := by
  refine runLoop_inv P _ _ (fun _ h => h) ?_ ?_
  · intro m st hq _
    rw [contState_phases]
    exact phasesAfterEvents_phase0 hq
  · intro st hq _
    rw [stateAfterEvents_phases]
    exact phasesAfterEvents_phase0 hq

/-- C6 (amended): the phase list is contiguous
(`phases[i].endDate = phases[i+1].startDate`) and the last phase is closed at
`summary.closureDate`; `phases[0].startDate` equals the loan `startDate`
provided some disbursal falls in the first month's window (in general the
first phase starts at the first month that consumes an event). -/
theorem C6_phases (pw : ℚ → ℚ → ℚ) (tla : ℚ) (ty : Int) (rate0 : ℚ)
    (start : YMD) (dl : List Disbursal) (rl : List InterestRateChange)
    (el : List ExtraPayment) (fe : ℚ) :
    ContigOk (calculateLoan pw tla ty rate0 start dl rl el fe).phases ∧
    (∀ p, (calculateLoan pw tla ty rate0 start dl rl el fe).phases.getLast? = some p →
      p.endDate =
        some (calculateLoan pw tla ty rate0 start dl rl el fe).summary.closureDate) ∧
    ((∃ d ∈ dl, getTime start ≤ getTime d.date ∧
        getTime d.date < getTime (addMonths start 1)) →
      (calculateLoan pw tla ty rate0 start dl rl el fe).phases ≠ [] ∧
      ((calculateLoan pw tla ty rate0 start dl rl el fe).phases.getD 0
        phDefault).startDate = start) := by
  set P := mkParams pw ty start dl rl el fe with hPdef
  have hres : calculateLoan pw tla ty rate0 start dl rl el fe =
      finalizeResult (runLoop P maxMonths 1 (initState rate0 start)) := rfl
  refine ⟨?_, ?_, ?_⟩
  · rw [hres]
    refine finalize_contig (runLoop_contig P maxMonths 1 _ ?_)
    intro i hi
    simp [initState] at hi
  · intro p hp
    rw [hres] at hp
    rw [hres]
    exact finalize_last_endDate p hp
  · rintro ⟨d, hd, hw1, hw2⟩
    have hmem : d ∈ monthDisbursalsOf P (initState rate0 start) := by
      rw [monthDisbursalsOf, List.mem_filter]
      refine ⟨(mem_sortByKey _ dl d).mpr hd, ?_⟩
      have h1 : inWindow (initState rate0 start) (getTime d.date) = true := by
        unfold inWindow monthEndOf
        show (decide (getTime start ≤ getTime d.date) &&
          decide (getTime d.date < getTime (addMonths start 1))) = true
        rw [decide_eq_true hw1, decide_eq_true hw2]
        rfl
      rw [h1]
      rfl
    have htrig : phaseTriggered P (initState rate0 start) = true := by
      unfold phaseTriggered
      have : (monthDisbursalsOf P (initState rate0 start)).isEmpty = false := by
        rcases hemp : (monthDisbursalsOf P (initState rate0 start)).isEmpty
        · rfl
        · rw [List.isEmpty_iff] at hemp
          rw [hemp] at hmem
          cases hmem
      rw [this]
      rfl
    have hafter : phasesAfterEvents P (initState rate0 start) =
        [newPhaseOf P (initState rate0 start)] := by
      unfold phasesAfterEvents
      rw [if_pos htrig]
      rfl
    have hQ : ∀ st1 : LoanState,
        st1.phases = phasesAfterEvents P (initState rate0 start) →
        st1.phases ≠ [] ∧ (st1.phases.getD 0 phDefault).startDate = start := by
      intro st1 h1
      rw [h1, hafter]
      exact ⟨by simp, rfl⟩
    have hm : maxMonths = 1199 + 1 := rfl
    rw [hres]
    by_cases hb : breakCondition P (initState rate0 start) = true
    · rw [hm, runLoop_succ_break 1199 hb]
      have hQ0 := hQ _ (stateAfterEvents_phases P (initState rate0 start))
      obtain ⟨hne, hsd⟩ := finalize_getD0 hQ0.1
      exact ⟨hne, by rw [hsd]; exact hQ0.2⟩
    · rw [hm, runLoop_succ_cont 1199 (Bool.not_eq_true _ |>.mp hb)]
      have hQ0 := hQ _ (contState_phases P 1 (initState rate0 start))
      have hQF := runLoop_phase0 P start 1199 2 _ hQ0
      obtain ⟨hne, hsd⟩ := finalize_getD0 hQF.1
      exact ⟨hne, by rw [hsd]; exact hQF.2⟩

/-! ## Counterexamples and witnesses on the concrete runs -/

/-- C3 (amended): an event dated strictly before the month's start date — in
particular an event before `startDate` during the first month — fails the
month's window filter, so it is not consumed and neither its amount nor its
rate takes effect that month. -/
theorem C3_pre_start_events (P : LoanParams) (st : LoanState) :
    (∀ d ∈ P.sortedDisbursals, getTime d.date < getTime st.currentDate →
      d ∉ monthDisbursalsOf P st) ∧
    (∀ r ∈ P.sortedRateChanges, getTime r.date < getTime st.currentDate →
      r ∉ monthRateChangesOf P st) ∧
    (∀ e ∈ P.sortedExtraPayments, getTime e.date < getTime st.currentDate →
      e ∉ monthExtrasOf P st) := by
  refine ⟨?_, ?_, ?_⟩ <;>
  · intro x _ hlt hmem
    have hf := List.of_mem_filter hmem
    rw [Bool.and_eq_true] at hf
    have hw := hf.1
    unfold inWindow at hw
    rw [Bool.and_eq_true] at hw
    have := of_decide_eq_true hw.1
    omega

/-- C3 witness: the amended theorem applied to the `calcPre` run's first
month, with the concrete disbursal dated 2023-12-31, one day before the
start date 2024-01-01. -/
theorem C3_pre_start_events_witness :
    (⟨⟨2023, 12, 31⟩, 50⟩ : Disbursal) ∉ monthDisbursalsOf Ppre st0 :=
  (C3_pre_start_events Ppre st0).1 ⟨⟨2023, 12, 31⟩, 50⟩ (by decide) (by decide)

/-- C3 counterexample: the pre-start disbursal of 50 is not treated as a
first-month event — the first row opens at 0, not 50. -/
theorem C3_pre_start_cx :
    0 < calcPre.schedule.length ∧
    (calcPre.schedule.getD 0 rowDefault).openingPrincipal = 0 ∧
    (0 : ℚ) ≠ 50 := by
  have hb : breakCondition Ppre st0 = false := by decide
  have e0 : calcPre.schedule = (runLoop Ppre maxMonths 1 st0).schedule := by
    rw [show calcPre = calculateLoan pwZero 1000 1 0 jan1 dlPre [] [] 0 from rfl,
      calculateLoan_eq, finalizeResult_schedule,
      show mkParams pwZero 1 jan1 dlPre [] [] 0 = Ppre from rfl,
      show initState 0 jan1 = st0 from rfl]
  have e1 : runLoop Ppre maxMonths 1 st0 =
      runLoop Ppre 1199 2 (contState Ppre 1 st0) := runLoop_succ_cont 1199 hb
  obtain ⟨t, ht⟩ := runLoop_schedule_extends Ppre 1199 2 (contState Ppre 1 st0)
  have hsched : calcPre.schedule = rowOf Ppre st0 1 :: t := by
    rw [e0, e1, ht, contState_schedule]
    rfl
  refine ⟨?_, ?_, by norm_num⟩
  · rw [hsched]
    simp
  · rw [hsched]
    show (rowOf Ppre st0 1).openingPrincipal = 0
    decide

/-- C1 counterexample: with disbursals in months 1 and 2, row 1 closes at 0
while row 2 opens at 50 — the month-2 disbursal is already inside
`openingPrincipal` — so the unconditional continuity claim fails. -/
theorem C1_continuity_cx :
    1 < calcTwoDisb.schedule.length ∧
    (calcTwoDisb.schedule.getD 0 rowDefault).closingPrincipal = 0 ∧
    (calcTwoDisb.schedule.getD 1 rowDefault).openingPrincipal = 50 ∧
    (calcTwoDisb.schedule.getD 0 rowDefault).closingPrincipal ≠
      (calcTwoDisb.schedule.getD 1 rowDefault).openingPrincipal :=
  ⟨by decide, by decide, by decide, by decide⟩

/-- C1 witness: the amended continuity theorem applied to the `calcW1` run at
the pair (row 1, row 2); month 2 consumes no disbursal. -/
theorem C1_continuity_witness :
    (calcW1.schedule.getD 0 rowDefault).closingPrincipal =
      (calcW1.schedule.getD 1 rowDefault).openingPrincipal :=
  C1_continuity pwZero 1000 1 0 jan1 [⟨jan1, 100⟩] [] [] 60 0 (by decide) (by decide)

/-- C2 counterexample: in the `calcMidMonth` run the first month contains a
mid-month disbursal, and its interest is day-weighted, not the flat
`openingPrincipal × rate/12/100`. -/
theorem C2_flat_interest_cx :
    0 < calcMidMonth.schedule.length ∧
    (calcMidMonth.schedule.getD 0 rowDefault).interest ≠
      (calcMidMonth.schedule.getD 0 rowDefault).openingPrincipal *
        ((calcMidMonth.schedule.getD 0 rowDefault).rate / 12 / 100) :=
  ⟨by decide, by decide⟩

/-- C2 witness: the amended flat-interest theorem applied to the
`calcStartTen` run's second row, whose month contains no events. -/
theorem C2_flat_interest_witness :
    (calcStartTen.schedule.getD 1 rowDefault).interest =
      (calcStartTen.schedule.getD 1 rowDefault).openingPrincipal *
        ((calcStartTen.schedule.getD 1 rowDefault).rate / 12 / 100) :=
  C2_flat_interest pwZero 1000 1 10 jan1 [⟨jan1, 1000⟩] [] [] 1000
    (calcStartTen.schedule.getD 1 rowDefault) (by decide) (by decide) (by decide)

/-- C4 counterexample: the pre-start disbursal is never consumed, so
`totalDisbursed` stays 0 while the input disbursal amounts sum to 50. -/
theorem C4_total_disbursed_cx :
    calcPre.summary.totalDisbursed = 0 ∧ sumAmounts dlPre = 50 ∧ (0 : ℚ) ≠ 50 :=
  ⟨by decide, by decide, by norm_num⟩

/-- C4 witness: the amended theorem applied to the fast-closing `calcW1` run
(2 rows, well below the 1200-month cap). -/
theorem C4_total_disbursed_witness :
    calcW1.summary.totalDisbursed = sumAmounts [⟨jan1, 100⟩] :=
  C4_total_disbursed pwZero 1000 1 0 jan1 [⟨jan1, 100⟩] [] [] 60 (by decide)

/-- C5 witness: the clamp theorem applied to the `calcClamp` run's first
month, where scheduled principal plus the 100-unit extra payment exceed the
50-unit balance. -/
theorem C5_reduction_clamp_witness :
    (rowOf Pclamp st0 1).principalPaid =
      (rowOf Pclamp st0 1).openingPrincipal -
        min (extraSumOf Pclamp st0) (rowOf Pclamp st0 1).openingPrincipal ∧
    (rowOf Pclamp st0 1).principalPaid +
      min (extraSumOf Pclamp st0) (rowOf Pclamp st0 1).openingPrincipal =
      (rowOf Pclamp st0 1).openingPrincipal ∧
    (rowOf Pclamp st0 1).emi =
      (rowOf Pclamp st0 1).principalPaid + (rowOf Pclamp st0 1).interest ∧
    (rowOf Pclamp st0 1).closingPrincipal = 0 :=
  C5_reduction_clamp Pclamp 1 st0 (contState Pclamp 1 st0) (rowOf Pclamp st0 1)
    (stepMonth_cont 1 (by decide)) (contState_last_row Pclamp 1 st0) (by decide)

/-- C6 counterexample: with the single disbursal in month 2, the first phase
starts at 2024-02-01, not at the loan start date 2024-01-01. -/
theorem C6_phases_cx :
    0 < calcFebDisb.phases.length ∧
    (calcFebDisb.phases.getD 0 phDefault).startDate = ⟨2024, 2, 1⟩ ∧
    (calcFebDisb.phases.getD 0 phDefault).startDate ≠ jan1 :=
  ⟨by decide, by decide, by decide⟩

/-- C6 witness: the amended phases theorem applied to the `calcTwoDisb` run:
its two phases are contiguous, the last closes at the closure date, and the
first starts at the start date since month 1 consumes a disbursal. -/
theorem C6_phases_witness :
    (calcTwoDisb.phases.getD 0 phDefault).endDate =
      some ((calcTwoDisb.phases.getD 1 phDefault).startDate) ∧
    (calcTwoDisb.phases.getD (calcTwoDisb.phases.length - 1) phDefault).endDate =
      some calcTwoDisb.summary.closureDate ∧
    0 < calcTwoDisb.phases.length ∧
    (calcTwoDisb.phases.getD 0 phDefault).startDate = jan1 := by
  have h := C6_phases pwZero 1000 1 0 jan1 [⟨jan1, 100⟩, ⟨⟨2024, 2, 1⟩, 50⟩] [] [] 200
  have h3 := h.2.2 ⟨⟨jan1, 100⟩, by decide, by decide, by decide⟩
  exact ⟨h.1 0 (by decide),
    h.2.1 (calcTwoDisb.phases.getD (calcTwoDisb.phases.length - 1) phDefault) (by decide),
    List.length_pos.mpr h3.1, h3.2⟩

/-- C7 counterexample: with no disbursals at all, a 5-unit extra payment at a
0 balance satisfies the claim's hypotheses (amount ≥ outstanding, every
disbursal vacuously consumed), row 1 closes at 0 — yet a row for month 2 is
still emitted, because the termination check also requires
`totalDisbursed > 0`. -/
theorem C7_full_extra_closes_cx :
    2 ≤ calcExtraOnly.schedule.length ∧
    (calcExtraOnly.schedule.getD 0 rowDefault).closingPrincipal = 0 ∧
    (calcExtraOnly.schedule.getD 0 rowDefault).openingPrincipal ≤ 5 := by
  have hb1 : breakCondition Pextra st0 = false := by decide
  have hb2 : breakCondition Pextra (contState Pextra 1 st0) = false := by decide
  have e0 : calcExtraOnly.schedule = (runLoop Pextra maxMonths 1 st0).schedule := by
    rw [show calcExtraOnly = calculateLoan pwZero 1000 1 0 jan1 [] [] elExtraOnly 0
        from rfl,
      calculateLoan_eq, finalizeResult_schedule,
      show mkParams pwZero 1 jan1 [] [] elExtraOnly 0 = Pextra from rfl,
      show initState 0 jan1 = st0 from rfl]
  have e1 : runLoop Pextra maxMonths 1 st0 =
      runLoop Pextra 1199 2 (contState Pextra 1 st0) := runLoop_succ_cont 1199 hb1
  have e2 : runLoop Pextra 1199 2 (contState Pextra 1 st0) =
      runLoop Pextra 1198 3 (contState Pextra 2 (contState Pextra 1 st0)) :=
    runLoop_succ_cont 1198 hb2
  obtain ⟨t, ht⟩ := runLoop_schedule_extends Pextra 1198 3
    (contState Pextra 2 (contState Pextra 1 st0))
  have hsched : calcExtraOnly.schedule =
      rowOf Pextra st0 1 :: rowOf Pextra (contState Pextra 1 st0) 2 :: t := by
    rw [e0, e1, e2, ht, contState_schedule, contState_schedule]
    rfl
  refine ⟨?_, ?_, ?_⟩
  · rw [hsched]
    simp
  · rw [hsched]
    show (rowOf Pextra st0 1).closingPrincipal = 0
    decide
  · rw [hsched]
    show (rowOf Pextra st0 1).openingPrincipal ≤ 5
    decide

/-- C7 witness: the amended theorem applied to the `calcClamp` run — the
month-1 extra payment of 100 covers the 50-unit balance, so row 1 closes at
0; from the resulting state (balance 0, disbursed 50, all disbursals
consumed) the next iteration breaks and emits nothing. -/
theorem C7_full_extra_closes_witness :
    (rowOf Pclamp st0 1).closingPrincipal = 0 ∧
    (stepMonth Pclamp 2 (contState Pclamp 1 st0)).2 = true ∧
    (runLoop Pclamp (0 + 1) 2 (contState Pclamp 1 st0)).schedule =
      (contState Pclamp 1 st0).schedule := by
  have h := C7_full_extra_closes Pclamp
  have h2 := h.2 0 2 (contState Pclamp 1 st0) (by decide) (by decide) (by decide)
  exact ⟨h.1 1 st0 (contState Pclamp 1 st0) (rowOf Pclamp st0 1)
      (stepMonth_cont 1 (by decide)) (contState_last_row Pclamp 1 st0) (by decide),
    h2.1, h2.2⟩

/-- C8 witness: the bounds theorem applied to the `calcTwoDisb` run's first
row. -/
theorem C8_closing_bounds_witness :
    0 ≤ (calcTwoDisb.schedule.getD 0 rowDefault).closingPrincipal ∧
    (calcTwoDisb.schedule.getD 0 rowDefault).closingPrincipal ≤
      (calcTwoDisb.schedule.getD 0 rowDefault).openingPrincipal :=
  C8_closing_bounds pwZero 1000 1 0 jan1 [⟨jan1, 100⟩, ⟨⟨2024, 2, 1⟩, 50⟩] [] [] 200
    (by decide) (by decide) (by decide)
    (calcTwoDisb.schedule.getD 0 rowDefault) (by decide)

/-- C9 counterexample: in the `calcClamp` run the month consumes 100 of
extra payments and the surplus term is 0, yet the recorded `extraPaid` is
the clamped 50 — not the consumed 100 the claim predicts. -/
theorem C9_extra_paid_cx :
    extraSumOf Pclamp st0 = 100 ∧
    (calcClamp.schedule.getD 0 rowDefault).extraPaid = 50 ∧
    ¬ ((calcClamp.schedule.getD 0 rowDefault).theoreticalEmi <
        (calcClamp.schedule.getD 0 rowDefault).emi) ∧
    (calcClamp.schedule.getD 0 rowDefault).extraPaid ≠ 100 :=
  ⟨by decide, by decide, by decide, by decide⟩

/-- C9 witness: the amended theorem applied to the `calcClamp` run's first
month. -/
theorem C9_extra_paid_witness :
    ((rowOf Pclamp st0 1).extraPaid =
      min (extraSumOf Pclamp st0) (rowOf Pclamp st0 1).openingPrincipal +
      (if (rowOf Pclamp st0 1).theoreticalEmi < (rowOf Pclamp st0 1).emi then
        (rowOf Pclamp st0 1).emi -
          max (rowOf Pclamp st0 1).theoreticalEmi (rowOf Pclamp st0 1).interest
      else 0)) ∧
    0 < calcSurplus.summary.totalExtraPaid :=
  C9_extra_paid Pclamp 1 st0 (contState Pclamp 1 st0) (rowOf Pclamp st0 1)
    (stepMonth_cont 1 (by decide)) (contState_last_row Pclamp 1 st0)

/-- C10 witness: the phase-field theorem applied to the `calcW1` run's first
month; the row's `phase` is 1, one past the covering phase's `phaseIndex` 0. -/
theorem C10_phase_field_witness :
    (rowOf PW1 st0 1).phase = (contState PW1 1 st0).phases.length ∧
    (rowOf PW1 st0 1).phase =
      ((contState PW1 1 st0).phases.getD 0 phDefault).phaseIndex + 1 ∧
    (rowOf PW1 st0 1).phase ≠
      ((contState PW1 1 st0).phases.getD 0 phDefault).phaseIndex := by
  have h := (C10_phase_field PW1).1 1 st0 (contState PW1 1 st0) (rowOf PW1 st0 1)
    (stepMonth_cont 1 (by decide)) (contState_last_row PW1 1 st0)
    ⟨rfl, by intro q hq; exact Option.noConfusion hq⟩
  have hl := h.2.2 ((contState PW1 1 st0).phases.getD 0 phDefault) (by decide)
  exact ⟨h.1, hl.1, hl.2⟩

end ConstructionLoan
